import Mathlib

/-!
Shallow embedding of the photo-converter core (TIFF→JPEG batch conversion
pipeline): the input classifier of src/url-parser.ts, the local expander,
conversion engine and pipeline orchestrator of src/converter.ts, and the
narrow contract of the Google Drive collaborator of src/google-drive.ts.

External collaborators (Node fs-extra, the sharp image codec, the WHATWG
URL parser, the Google Drive client, and the Date.now clock) are modelled
as explicit oracles/environments supplied to each function; machine
integers are Nat/Int; code that can throw returns Except; filesystem and
staging-directory effects are exposed as an explicit event trace.
-/

set_option linter.unusedVariables false

namespace PhotoConv

/-! ### Character and string helpers (models of JS string primitives) -/

/-- Characters accepted by the capture groups `[a-zA-Z0-9-_]` of the three
Google Drive folder-id regular expressions in src/url-parser.ts. -/
def isIdChar (c : Char) : Bool :=
  c.isAlpha || c.isDigit || c == '-' || c == '_'

/-- Leftmost match of the JS regular expression `lit([a-zA-Z0-9-_]+)` over a
character list: scan left to right for the first position where the literal
occurs followed by at least one id character, and return the greedy capture
(the maximal id-character run after the literal), as `String.match` does for
the patterns of src/url-parser.ts. -/
def matchCapture (lit : List Char) : List Char → Option (List Char)
  | [] => none
  | c :: rest =>
    if lit.isPrefixOf (c :: rest) then
      let cap := ((c :: rest).drop lit.length).takeWhile isIdChar
      if cap.isEmpty then matchCapture lit rest else some cap
    else matchCapture lit rest

/-- JS `String.includes`: does `pat` occur as a contiguous substring? -/
def hasSubstring (pat : List Char) : List Char → Bool
  | [] => pat.isEmpty
  | c :: rest => pat.isPrefixOf (c :: rest) || hasSubstring pat rest

/-! ### Locator classifier (src/url-parser.ts) -/

/-- The two values of the `type` field of `ParsedInput` in src/url-parser.ts:
`'local' | 'google-drive'`. -/
inductive InputType where
  | localPath
  | googleDrive
deriving DecidableEq, Repr

/-- The `ParsedInput` interface of src/url-parser.ts. -/
structure ParsedInput where
  type : InputType
  path : String
  folderId : Option String
deriving DecidableEq, Repr

namespace InputParser

/-- Model of `InputParser.extractFolderId` of src/url-parser.ts: try the three
patterns `/\/folders\/([a-zA-Z0-9-_]+)/`, `/id=([a-zA-Z0-9-_]+)/`,
`/\/d\/([a-zA-Z0-9-_]+)/` in order against the whole input string and
return the first capture found, or none. -/
def extractFolderId (url : String) : Option String :=
  match matchCapture "/folders/".data url.data with
  | some cap => some (String.mk cap)
  | none =>
    match matchCapture "id=".data url.data with
    | some cap => some (String.mk cap)
    | none =>
      match matchCapture "/d/".data url.data with
      | some cap => some (String.mk cap)
      | none => none

/-- Model of `InputParser.parse` of src/url-parser.ts, with the external WHATWG URL
collaborator (Node's `url` module) abstracted as a `urlHostname` oracle:
`urlHostname input = some h` models `new URL(input)` succeeding with
`url.hostname = h`, and `none` models the constructor throwing. If the
hostname contains `'drive.google.com'` and a folder id can be extracted the
input is classified as google-drive; in every other case it is classified
as a local path with the input string kept unchanged and no folder id. -/
def parse (urlHostname : String → Option String) (input : String) : ParsedInput :=
  match urlHostname input with
  | some host =>
    if hasSubstring "drive.google.com".data host.data then
      match extractFolderId input with
      | some fid => ⟨InputType.googleDrive, input, some fid⟩
      | none => ⟨InputType.localPath, input, none⟩
    else ⟨InputType.localPath, input, none⟩
  | none => ⟨InputType.localPath, input, none⟩

end InputParser

/-- Sub-list of `l` after the last occurrence of `sep` (all of `l` when
`sep` does not occur). -/
def afterLast (sep : Char) (l : List Char) : List Char :=
  (l.reverse.takeWhile (fun c => !(c == sep))).reverse

/-- Executable model of the external WHATWG URL collaborator's hostname
field for `http`/`https` URLs of the shape
`scheme://[userinfo@]host[:port][/path][?query][#fragment]`; used only to
instantiate the `urlHostname` oracle on concrete example URLs. -/
def simpleUrlHostname (s : String) : Option String :=
  let fromScheme := fun (pre : List Char) =>
    if pre.isPrefixOf s.data then
      let auth := (s.data.drop pre.length).takeWhile
        (fun c => !(c == '/' || c == '?' || c == '#'))
      let host := (afterLast '@' auth).takeWhile (fun c => !(c == ':'))
      if host.isEmpty then none else some (String.mk host)
    else none
  match fromScheme "https://".data with
  | some h => some h
  | none => fromScheme "http://".data

/-! ### Path helpers (models of Node `path`) -/

/-- Node `path.join(a, b)` for the shapes used by the converter: join with a
single separator, with an empty left segment disappearing. -/
def joinPath (a b : String) : String :=
  if a.isEmpty then b
  else if a.data.getLast? == some '/' then a ++ b
  else a ++ "/" ++ b

/-- Node `path.basename(p)`: the part of `p` after the last `/`. -/
def basename (p : String) : String :=
  String.mk (afterLast '/' p.data)

/-- Node `path.extname(p)` for ordinary basenames: the substring of the
basename from its last dot, or empty when the basename has no dot or the
only dot is its first character (hidden files such as `.tif` have no
extension). -/
def extname (p : String) : String :=
  let b := (basename p).data
  let afterDot := b.reverse.takeWhile (fun c => !(c == '.'))
  if afterDot.length == b.length then ""
  else if afterDot.length + 1 == b.length then ""
  else String.mk ('.' :: afterDot.reverse)

/-- Node `path.dirname(p)` for the shapes used by the converter: everything
before the last `/`, `"."` when there is no separator, `"/"` for a file at
the root. -/
def dirname (p : String) : String :=
  if hasSubstring ['/'] p.data then
    let d := (p.data.reverse.dropWhile (fun c => !(c == '/'))).drop 1 |>.reverse
    if d.isEmpty then "/" else String.mk d
  else "."

/-- ASCII lowercasing, the model of JS `toLowerCase` on the strings in
play. -/
def lowerStr (s : String) : String :=
  String.mk (s.data.map Char.toLower)

/-- The extension test of src/converter.ts (used both by `findTiffFiles`
and `isValidTiffFile`): the lowercase `path.extname` must be `.tif` or
`.tiff`. -/
def hasTiffExt (p : String) : Bool :=
  let ext := lowerStr (extname p)
  ext == ".tif" || ext == ".tiff"

/-! ### Local filesystem model and the local expander (src/converter.ts) -/

/-- One directory entry as seen through `fs.readdir(dir, {withFileTypes})`:
a regular file, a subdirectory with its own entries, or anything else
(sockets, broken symlinks, ...), which `findTiffFiles` skips. -/
inductive FsEntry where
  | file (name : String)
  | dir (name : String) (entries : List FsEntry)
  | other (name : String)

/-- Result of `fs.pathExists` plus `fs.stat` on one resolved local path:
missing, a regular file, a directory with the given entries, or something
that is neither (`processLocalPath` returns no files for it). -/
inductive StatResult where
  | missing
  | file
  | directory (entries : List FsEntry)
  | other

/-- The recursive branch of `ImageConverter.findTiffFiles`
(src/converter.ts, `options.recursive` true): files with a TIFF extension
are collected, subdirectories are expanded depth-first in entry order. -/
def findTiffFilesRec (dirPath : String) : List FsEntry → List String
  | [] => []
  | FsEntry.dir n sub :: rest =>
    findTiffFilesRec (joinPath dirPath n) sub ++ findTiffFilesRec dirPath rest
  | FsEntry.file n :: rest =>
    (if hasTiffExt n then [joinPath dirPath n] else []) ++ findTiffFilesRec dirPath rest
  | FsEntry.other _ :: rest => findTiffFilesRec dirPath rest

/-- The non-recursive branch of `ImageConverter.findTiffFiles`
(src/converter.ts, `options.recursive` false): only top-level regular files
with a TIFF extension are collected; subdirectories are skipped. -/
def findTiffFilesNonRec (dirPath : String) : List FsEntry → List String
  | [] => []
  | FsEntry.file n :: rest =>
    (if hasTiffExt n then [joinPath dirPath n] else []) ++ findTiffFilesNonRec dirPath rest
  | FsEntry.dir _ _ :: rest => findTiffFilesNonRec dirPath rest
  | FsEntry.other _ :: rest => findTiffFilesNonRec dirPath rest

/-- Model of `ImageConverter.findTiffFiles` of src/converter.ts, over the directory
listing of the filesystem model. -/
def findTiffFiles (recursive : Bool) (dirPath : String) (entries : List FsEntry) :
    List String :=
  if recursive then findTiffFilesRec dirPath entries
  else findTiffFilesNonRec dirPath entries

/-- Node `path.resolve` relative to a working directory, for paths without
`..` segments: absolute paths are kept, relative ones are joined to `cwd`. -/
def resolvePath (cwd p : String) : String :=
  if p.data.head? == some '/' then p else joinPath cwd p

/-- The errors that abort a whole pipeline run (src/converter.ts throws an
`Error` with the corresponding message). -/
inductive RunError where
  | serviceMissing
  | driveNotInitialized
  | listFailed (msg : String)
  | downloadFailed (msg : String)
  | pathNotFound (path : String)
deriving DecidableEq, Repr

/-- Model of `ImageConverter.processLocalPath` of src/converter.ts, with
`fs.pathExists`/`fs.stat` abstracted as the `fsStat` oracle on resolved
paths: a missing path throws, a regular file is returned unconditionally as
the single candidate, a directory is expanded by `findTiffFiles`, anything
else yields no candidates. -/
def processLocalPath (recursive : Bool) (fsStat : String → StatResult)
    (cwd inputPath : String) : Except RunError (List String) :=
  let resolvedPath := resolvePath cwd inputPath
  match fsStat resolvedPath with
  | StatResult.missing => Except.error (RunError.pathNotFound inputPath)
  | StatResult.file => Except.ok [resolvedPath]
  | StatResult.directory entries =>
    Except.ok (findTiffFiles recursive resolvedPath entries)
  | StatResult.other => Except.ok []

/-- Specification-side characterisation of the files `findTiffFiles` may
return: `QualFile r dirPath entries p` holds when `p` is a top-level
regular file of `entries` with a TIFF extension, or — only in the recursive
mode — such a file of some subdirectory, reached depth-first. -/
inductive QualFile : Bool → String → List FsEntry → String → Prop where
  | top {r : Bool} {dirPath n : String} {entries : List FsEntry} :
      FsEntry.file n ∈ entries → hasTiffExt n = true →
      QualFile r dirPath entries (joinPath dirPath n)
  | sub {dirPath dn p : String} {entries subEntries : List FsEntry} :
      FsEntry.dir dn subEntries ∈ entries →
      QualFile true (joinPath dirPath dn) subEntries p →
      QualFile true dirPath entries p

/-- Specification-side form of the non-recursive expansion: the top-level
file entries with a TIFF extension, in entry order. -/
def topLevelTiffFiles (dirPath : String) (entries : List FsEntry) : List String :=
  entries.filterMap (fun e =>
    match e with
    | FsEntry.file n => if hasTiffExt n then some (joinPath dirPath n) else none
    | _ => none)

/-! ### Conversion engine (src/converter.ts) -/

/-- The `ConversionOptions` interface of src/types.ts. -/
structure ConversionOptions where
  quality : Nat
  outputDir : Option String
  recursive : Bool
  overwrite : Bool

/-- The `ConversionResult` interface of src/types.ts; `processingTime` is a
difference of `Date.now()` readings, hence an integer. -/
structure ConversionResult where
  inputPath : String
  outputPath : String
  success : Bool
  error : Option String
  processingTime : Int
deriving DecidableEq, Repr

/-- The `ConversionStats` interface of src/types.ts. -/
structure ConversionStats where
  total : Nat
  successful : Nat
  failed : Nat
  totalTime : Int
deriving DecidableEq, Repr

/-- What `fs.stat` reports about the input file inside `isValidTiffFile`:
a regular file, something that exists but is not a regular file, or a
thrown stat error (caught and mapped to invalid). -/
inductive FileStat where
  | file
  | notFile
  | statError
deriving DecidableEq

/-- The external observations `isValidTiffFile` makes about one path:
its stat outcome and the `format` field of the sharp metadata probe
(`none` models `sharp(..).metadata()` throwing). -/
structure FileInfo where
  stat : FileStat
  metadataFormat : Option String

/-- The external environment of `convertFile` for one path: the validation
observations, whether `fs.ensureDir` on the output directory throws (with
which message), and whether the sharp JPEG encode throws (with which
message). `none` means the step succeeds. -/
structure FileEnv where
  info : FileInfo
  ensureDirError : Option String
  codecError : Option String

/-- One `Date.now()` reading: consume the next timestamp of the clock
stream (0 once the stream is exhausted). -/
def tick : List Nat → Nat × List Nat
  | [] => (0, [])
  | t :: ts => (t, ts)

/-- Model of `ImageConverter.isValidTiffFile` of src/converter.ts: the path must
stat as a regular file, carry a lowercase `.tif`/`.tiff` extension, and the
sharp metadata probe must report format `tiff`; any thrown error is caught
and reported as invalid. -/
def isValidTiffFile (info : FileInfo) (filePath : String) : Bool :=
  match info.stat with
  | FileStat.statError => false
  | FileStat.notFile => false
  | FileStat.file =>
    if hasTiffExt filePath then
      match info.metadataFormat with
      | some fmt => fmt == "tiff"
      | none => false
    else false

/-- JS `a || b` for an optional string configuration value: `b` when `a` is
absent or empty (falsy). -/
def jsOrElse (a : Option String) (b : String) : String :=
  match a with
  | some s => if s.isEmpty then b else s
  | none => b

/-- Model of `ImageConverter.generateOutputPath` of src/converter.ts:
`{outputDir || dirname(input)}/{basename without extension}.jpg`. -/
def generateOutputPath (opts : ConversionOptions) (inputPath : String) : String :=
  let dir := jsOrElse opts.outputDir (dirname inputPath)
  let baseChars := (basename inputPath).data
  let base := String.mk (baseChars.take (baseChars.length - (extname inputPath).data.length))
  joinPath dir (base ++ ".jpg")

/-- Externally visible filesystem/collaborator events of one pipeline run,
in occurrence order: creation and removal of a directory, the start of
processing of one raw input, the invocation of `convertFile` on a
candidate, and the invocation of the sharp codec. -/
inductive FsEvent where
  | ensureDir (path : String)
  | removeDir (path : String)
  | inputProcessed (input : String)
  | convertStart (path : String)
  | codecRun (path : String)
deriving DecidableEq, Repr

/-- Result of one `convertFile` call: the per-file outcome, the events it
emitted, and the remaining clock stream. -/
structure ConvertStep where
  result : ConversionResult
  events : List FsEvent
  clockOut : List Nat

/-- Model of `ImageConverter.convertFile` of src/converter.ts: read the start time,
validate, build the output path, ensure the output directory, run the
codec; every thrown error is caught and turned into a failed
`ConversionResult` with an empty output path, so the function is total
(never throws). Each branch reads `Date.now()` once more for
`processingTime`. -/
def convertFile (opts : ConversionOptions) (env : String → FileEnv)
    (inputPath : String) (clock : List Nat) : ConvertStep :=
  let (startTime, c1) := tick clock
  let fe := env inputPath
  if isValidTiffFile fe.info inputPath then
    let outputPath := generateOutputPath opts inputPath
    match fe.ensureDirError with
    | some msg =>
      let (endTime, c2) := tick c1
      ⟨⟨inputPath, "", false, some msg, (endTime : Int) - (startTime : Int)⟩,
        [FsEvent.convertStart inputPath], c2⟩
    | none =>
      match fe.codecError with
      | some msg =>
        let (endTime, c2) := tick c1
        ⟨⟨inputPath, "", false, some msg, (endTime : Int) - (startTime : Int)⟩,
          [FsEvent.convertStart inputPath, FsEvent.codecRun inputPath], c2⟩
      | none =>
        let (endTime, c2) := tick c1
        ⟨⟨inputPath, outputPath, true, none, (endTime : Int) - (startTime : Int)⟩,
          [FsEvent.convertStart inputPath, FsEvent.codecRun inputPath], c2⟩
  else
    let (endTime, c2) := tick c1
    ⟨⟨inputPath, "", false, some "Input file is not a valid TIFF image",
        (endTime : Int) - (startTime : Int)⟩,
      [FsEvent.convertStart inputPath], c2⟩

/-- Accumulated state of the `for` loop of `ImageConverter.convertFiles`:
the two counters, plus the trace of per-file outcomes and events (logged
and discarded by the source, kept here as the observable history). -/
structure LoopOut where
  successful : Nat
  failed : Nat
  trace : List ConversionResult
  events : List FsEvent
  clockOut : List Nat

/-- The `for` loop of `ImageConverter.convertFiles`: convert each path in
order, incrementing `successful` or `failed` according to the outcome; a
failed item never stops the iteration. -/
def convertFilesLoop (opts : ConversionOptions) (env : String → FileEnv) :
    List String → List Nat → Nat → Nat → LoopOut
  | [], clock, s, f => ⟨s, f, [], [], clock⟩
  | p :: rest, clock, s, f =>
    let step := convertFile opts env p clock
    let out :=
      if step.result.success then convertFilesLoop opts env rest step.clockOut (s + 1) f
      else convertFilesLoop opts env rest step.clockOut s (f + 1)
    ⟨out.successful, out.failed, step.result :: out.trace,
      step.events ++ out.events, out.clockOut⟩

/-- Result of `convertFiles`: the aggregate statistics plus the observable
trace of outcomes, events and the remaining clock. -/
structure BatchOut where
  stats : ConversionStats
  trace : List ConversionResult
  events : List FsEvent
  clockOut : List Nat

/-- Model of `ImageConverter.convertFiles` of src/converter.ts: `total` is the input
length, the counters come from the sequential loop, and `totalTime` is
`Date.now() - startTime` — the wall clock around the whole loop, not an
accumulation of the per-file times. -/
def convertFiles (opts : ConversionOptions) (env : String → FileEnv)
    (inputPaths : List String) (clock : List Nat) : BatchOut :=
  let (startTime, c0) := tick clock
  let lo := convertFilesLoop opts env inputPaths c0 0 0
  let (endTime, c1) := tick lo.clockOut
  ⟨⟨inputPaths.length, lo.successful, lo.failed, (endTime : Int) - (startTime : Int)⟩,
    lo.trace, lo.events, c1⟩

/-- Whether the environment lets `convertFile` succeed on a path: valid
TIFF, output directory creatable, codec succeeds. -/
def fileSucceeds (env : String → FileEnv) (p : String) : Bool :=
  isValidTiffFile (env p).info p && (env p).ensureDirError.isNone
    && (env p).codecError.isNone

/-- Sum of the per-file `processingTime` values of a trace of outcomes. -/
def sumDurations (trace : List ConversionResult) : Int :=
  (trace.map (fun r => r.processingTime)).sum

/-- A conversion environment in which every path is a perfectly healthy
TIFF and every external step succeeds; used for concrete evaluations. -/
def allOkEnv : String → FileEnv :=
  fun _ => ⟨⟨FileStat.file, some "tiff"⟩, none, none⟩

/-- Default conversion options of the CLI: quality 80, no output directory,
non-recursive, no overwrite. -/
def defaultOpts : ConversionOptions := ⟨80, none, false, false⟩

/-! ### Remote fetcher (src/google-drive.ts contract, src/converter.ts loop) -/

/-- The `GoogleDriveFile` fields used by the fetch loop. -/
structure DriveFile where
  id : String
  name : String
deriving DecidableEq, Repr

/-- The narrow contract of the `GoogleDriveService` collaborator
(src/google-drive.ts) as consumed by src/converter.ts: its initialisation
flag, the folder listing (which may throw `Failed to list files`), and the
per-file download (which may throw `Failed to download file`). -/
structure GoogleDriveService where
  initialized : Bool
  listTiff : String → Except String (List DriveFile)
  download : String → Except String Unit

/-- The download loop of `ImageConverter.processGoogleDriveFolder`:
download each listed file in order into `tempDir/<name>`, collecting the
staged paths; the first failing download aborts the whole fetch. -/
def downloadAll (svc : GoogleDriveService) (tempDir : String) :
    List DriveFile → Except RunError (List String)
  | [] => Except.ok []
  | f :: rest =>
    match svc.download f.id with
    | Except.error m => Except.error (RunError.downloadFailed m)
    | Except.ok _ =>
      match downloadAll svc tempDir rest with
      | Except.error e => Except.error e
      | Except.ok paths => Except.ok (joinPath tempDir f.name :: paths)

/-- Model of `ImageConverter.processGoogleDriveFolder` of src/converter.ts: require
an initialized service, list the folder, then download every file; list and
download failures propagate and abort the fetch. -/
def processGoogleDriveFolder (svc : Option GoogleDriveService)
    (folderId tempDir : String) : Except RunError (List String) :=
  match svc with
  | none => Except.error RunError.driveNotInitialized
  | some s =>
    if s.initialized = false then Except.error RunError.driveNotInitialized
    else
      match s.listTiff folderId with
      | Except.error m => Except.error (RunError.listFailed m)
      | Except.ok files => downloadAll s tempDir files

/-! ### Pipeline orchestrator (src/converter.ts, processInput) -/

/-- The full external environment of one pipeline run: the URL collaborator,
the local filesystem, the optional Drive collaborator, and the per-file
conversion environment. -/
structure Env where
  urlHostname : String → Option String
  fsStat : String → StatResult
  svc : Option GoogleDriveService
  files : String → FileEnv

/-- Expansion of one raw input inside the loop of
`ImageConverter.processInput`: classify it, then either require and use
the Drive collaborator or expand it as a local path. -/
def expandInput (opts : ConversionOptions) (env : Env) (cwd tempDir : String)
    (input : String) : Except RunError (List String) :=
  let parsed := InputParser.parse env.urlHostname input
  match parsed.type with
  | InputType.googleDrive =>
    match env.svc with
    | none => Except.error RunError.serviceMissing
    | some s => processGoogleDriveFolder (some s) (parsed.folderId.getD "") tempDir
  | InputType.localPath => processLocalPath opts.recursive env.fsStat cwd parsed.path

/-- Events and result of the input-expansion loop. -/
structure GatherOut where
  events : List FsEvent
  result : Except RunError (List String)

/-- The input loop of `ImageConverter.processInput`: expand every input in
order into the flat candidate list; the first expansion error aborts the
loop (and, below, the run). -/
def gatherFiles (opts : ConversionOptions) (env : Env) (cwd tempDir : String) :
    List String → GatherOut
  | [] => ⟨[], Except.ok []⟩
  | i :: rest =>
    match expandInput opts env cwd tempDir i with
    | Except.error e => ⟨[FsEvent.inputProcessed i], Except.error e⟩
    | Except.ok fs =>
      let g := gatherFiles opts env cwd tempDir rest
      ⟨FsEvent.inputProcessed i :: g.events,
        match g.result with
        | Except.error e => Except.error e
        | Except.ok more => Except.ok (fs ++ more)⟩

/-- The staging directory of `ImageConverter.processInput`:
`path.join(process.cwd(), '.temp-downloads')`. -/
def stagingPath (cwd : String) : String := joinPath cwd ".temp-downloads"

/-- Whether a directory at path `p` exists after replaying an event trace
over an initial existence state: `fs.ensureDir` creates it, `fs.remove`
deletes it, nothing else touches it. -/
def existsAfter (p : String) (b0 : Bool) (evs : List FsEvent) : Bool :=
  evs.foldl (fun b e =>
    match e with
    | FsEvent.ensureDir q => if q == p then true else b
    | FsEvent.removeDir q => if q == p then false else b
    | _ => b) b0

/-- Result of one whole pipeline run: the statistics or the fatal error,
the full event trace, and the remaining clock. -/
structure RunOut where
  result : Except RunError ConversionStats
  events : List FsEvent
  clockOut : List Nat

/-- Model of `ImageConverter.processInput` of src/converter.ts: create the staging
directory, expand every input into the flat candidate list, return zero
statistics when that list is empty, otherwise convert it; the `finally`
clause removes the staging directory (after checking it still exists) on
every exit path, error or success. -/
def processInput (opts : ConversionOptions) (env : Env) (cwd : String)
    (inputs : List String) (clock : List Nat) : RunOut :=
  let tempDir := stagingPath cwd
  let g := gatherFiles opts env cwd tempDir inputs
  let body :=
    match g.result with
    | Except.error e =>
      RunOut.mk (Except.error e) (FsEvent.ensureDir tempDir :: g.events) clock
    | Except.ok allFiles =>
      if allFiles.isEmpty then
        RunOut.mk (Except.ok ⟨0, 0, 0, 0⟩) (FsEvent.ensureDir tempDir :: g.events) clock
      else
        let b := convertFiles opts env.files allFiles clock
        RunOut.mk (Except.ok b.stats)
          (FsEvent.ensureDir tempDir :: (g.events ++ b.events)) b.clockOut
  let cleanup :=
    if existsAfter tempDir false body.events then [FsEvent.removeDir tempDir] else []
  RunOut.mk body.result (body.events ++ cleanup) body.clockOut

/-- Boolean success test for expansion results. -/
def isOkE (x : Except RunError (List String)) : Bool :=
  match x with
  | Except.ok _ => true
  | Except.error _ => false

/-- An environment whose every local path is missing; every input is
classified local because URL parsing always fails. Used for concrete
evaluations of fatal-error paths. -/
def allMissingEnv : Env :=
  ⟨fun _ => none, fun _ => StatResult.missing, none, allOkEnv⟩

/-- An environment of healthy local single-file inputs. -/
def localFileEnv : Env :=
  ⟨fun _ => none, fun _ => StatResult.file, none, allOkEnv⟩

/-! ## Helper lemmas -/

theorem tick_eq (c : List Nat) : tick c = (c.headD 0, c.drop 1) := by
  cases c <;> rfl

theorem parse_path (urlHostname : String → Option String) (s : String) :
    (InputParser.parse urlHostname s).path = s := by
  unfold InputParser.parse
  cases urlHostname s with
  | none => rfl
  | some h =>
    by_cases hs : hasSubstring "drive.google.com".data h.data = true <;>
      cases hf : InputParser.extractFolderId s <;> simp [hs, hf]

theorem convertFile_success (opts : ConversionOptions) (env : String → FileEnv)
    (p : String) (c : List Nat) :
    (convertFile opts env p c).result.success = fileSucceeds env p := by
  unfold convertFile fileSucceeds
  cases h1 : isValidTiffFile (env p).info p <;>
    cases h2 : (env p).ensureDirError <;>
      cases h3 : (env p).codecError <;>
        simp [tick_eq, h1, h2, h3]

theorem convertFile_inputPath (opts : ConversionOptions) (env : String → FileEnv)
    (p : String) (c : List Nat) :
    (convertFile opts env p c).result.inputPath = p := by
  unfold convertFile
  cases h1 : isValidTiffFile (env p).info p <;>
    cases h2 : (env p).ensureDirError <;>
      cases h3 : (env p).codecError <;>
        simp [tick_eq, h1, h2, h3]

theorem convertFile_clockOut (opts : ConversionOptions) (env : String → FileEnv)
    (p : String) (c : List Nat) :
    (convertFile opts env p c).clockOut = c.drop 2 := by
  unfold convertFile
  cases h1 : isValidTiffFile (env p).info p <;>
    cases h2 : (env p).ensureDirError <;>
      cases h3 : (env p).codecError <;>
        simp [tick_eq, h1, h2, h3, List.drop_drop]

theorem convertFile_duration (opts : ConversionOptions) (env : String → FileEnv)
    (p : String) (c : List Nat) :
    (convertFile opts env p c).result.processingTime
      = ((c.drop 1).headD 0 : Int) - (c.headD 0 : Int) := by
  unfold convertFile
  cases h1 : isValidTiffFile (env p).info p <;>
    cases h2 : (env p).ensureDirError <;>
      cases h3 : (env p).codecError <;>
        simp [tick_eq, h1, h2, h3]

theorem convertFile_events (opts : ConversionOptions) (env : String → FileEnv)
    (p : String) (c : List Nat) :
    ∀ e ∈ (convertFile opts env p c).events,
      e = FsEvent.convertStart p ∨ e = FsEvent.codecRun p := by
  unfold convertFile
  cases h1 : isValidTiffFile (env p).info p <;>
    cases h2 : (env p).ensureDirError <;>
      cases h3 : (env p).codecError <;>
        simp [tick_eq, h1, h2, h3]

theorem filter_length_split {α : Type} (q : α → Bool) : ∀ l : List α,
    (l.filter q).length + (l.filter (fun a => !(q a))).length = l.length
  | [] => rfl
  | a :: l => by
    have ih := filter_length_split q l
    cases h : q a <;> simp [List.filter_cons, h] <;> omega

theorem convertFilesLoop_spec (opts : ConversionOptions) (env : String → FileEnv) :
    ∀ (paths : List String) (c : List Nat) (s f : Nat),
      (convertFilesLoop opts env paths c s f).successful
          = s + (paths.filter (fun p => fileSucceeds env p)).length ∧
      (convertFilesLoop opts env paths c s f).failed
          = f + (paths.filter (fun p => !(fileSucceeds env p))).length ∧
      (convertFilesLoop opts env paths c s f).trace.map (fun r => r.inputPath) = paths ∧
      (convertFilesLoop opts env paths c s f).clockOut = c.drop (2 * paths.length) := by
  intro paths
  induction paths with
  | nil => intro c s f; simp [convertFilesLoop]
  | cons p rest ih =>
    intro c s f
    have hin := convertFile_inputPath opts env p c
    have hck := convertFile_clockOut opts env p c
    have h1 := convertFile_success opts env p c
    cases hs : fileSucceeds env p with
    | true =>
      rw [hs] at h1
      obtain ⟨ihs, ihf, iht, ihc⟩ := ih ((convertFile opts env p c).clockOut) (s + 1) f
      refine ⟨?_, ?_, ?_, ?_⟩
      · simp only [convertFilesLoop]
        simp [h1, ihs, List.filter_cons, hs]
        omega
      · simp only [convertFilesLoop]
        simp [h1, ihf, List.filter_cons, hs]
      · simp only [convertFilesLoop]
        simp [h1, iht, hin]
      · rw [hck] at ihc
        simp only [convertFilesLoop]
        have h2 : 2 + 2 * rest.length = 2 * (rest.length + 1) := by omega
        simp [h1, ihc, hck, List.drop_drop, h2]
    | false =>
      rw [hs] at h1
      obtain ⟨ihs, ihf, iht, ihc⟩ := ih ((convertFile opts env p c).clockOut) s (f + 1)
      refine ⟨?_, ?_, ?_, ?_⟩
      · simp only [convertFilesLoop]
        simp [h1, ihs, List.filter_cons, hs]
      · simp only [convertFilesLoop]
        simp [h1, ihf, List.filter_cons, hs]
        omega
      · simp only [convertFilesLoop]
        simp [h1, iht, hin]
      · rw [hck] at ihc
        simp only [convertFilesLoop]
        have h2 : 2 + 2 * rest.length = 2 * (rest.length + 1) := by omega
        simp [h1, ihc, hck, List.drop_drop, h2]

theorem convertFilesLoop_time (opts : ConversionOptions) (env : String → FileEnv) :
    ∀ (paths : List String) (c : List Nat) (s f : Nat),
      List.Chain' (fun a b => a ≤ b) c →
      2 * paths.length + 1 ≤ c.length →
      sumDurations (convertFilesLoop opts env paths c s f).trace
        ≤ ((c.drop (2 * paths.length)).headD 0 : Int) - (c.headD 0 : Int) := by
  intro paths
  induction paths with
  | nil => intro c s f hc hl; simp [convertFilesLoop, sumDurations]
  | cons p rest ih =>
    intro c s f hc hl
    cases c with
    | nil => simp at hl
    | cons t0 c' =>
      cases c' with
      | nil => simp at hl
      | cons t1 c2 =>
        have hlen2 : 2 * rest.length + 1 ≤ c2.length := by
          simp at hl; omega
        have hc2 : List.Chain' (fun a b => a ≤ b) (t1 :: c2) :=
          (List.chain'_cons'.mp hc).2
        have hc3 : List.Chain' (fun a b => a ≤ b) c2 :=
          (List.chain'_cons'.mp hc2).2
        have h01 : t0 ≤ t1 := (List.chain'_cons.mp hc).1
        obtain ⟨u, c3, rfl⟩ : ∃ u c3, c2 = u :: c3 := by
          cases c2 with
          | nil => simp at hlen2
          | cons u c3 => exact ⟨u, c3, rfl⟩
        have h1u : t1 ≤ u := (List.chain'_cons.mp hc2).1
        have hdur2 : (convertFile opts env p (t0 :: t1 :: u :: c3)).result.processingTime
            = (t1 : Int) - (t0 : Int) := by
          simpa using convertFile_duration opts env p (t0 :: t1 :: u :: c3)
        have hck2 : (convertFile opts env p (t0 :: t1 :: u :: c3)).clockOut = u :: c3 := by
          simpa using convertFile_clockOut opts env p (t0 :: t1 :: u :: c3)
        have hIH := ih (u :: c3) s f hc3 hlen2
        have hIH' := ih (u :: c3) (s + 1) f hc3 hlen2
        have hIH'' := ih (u :: c3) s (f + 1) hc3 hlen2
        simp only [List.headD_cons] at hIH hIH' hIH''
        simp only [sumDurations] at hIH hIH' hIH''
        have hidx : 2 * (p :: rest).length = 2 * rest.length + 1 + 1 := by
          simp [Nat.mul_succ]
        rw [hidx, List.drop_succ_cons, List.drop_succ_cons, List.headD_cons]
        simp only [convertFilesLoop]
        cases hb : (convertFile opts env p (t0 :: t1 :: u :: c3)).result.success <;>
          simp only [hb, Bool.false_eq_true, if_true, if_false, ite_true, ite_false] <;>
          rw [hck2] <;>
          simp only [sumDurations, List.map_cons, List.sum_cons, hdur2] <;>
          omega

/-! ## Claim theorems: conversion engine -/

/-- Claim C1: for every list of K input paths of which exactly F fail
validation or conversion, `convertFiles` returns statistics with
`total = K`, `successful = K - F`, `failed = F`, and processes every item
in order — a single failed item never aborts the run. The embedded
`convertFiles` is a total function (all failures are absorbed in outcomes,
nothing is thrown), for every conversion environment and clock. -/
theorem C1_convertAll_statistics (opts : ConversionOptions) (env : String → FileEnv)
    (paths : List String) (clock : List Nat) :
    (convertFiles opts env paths clock).stats.total = paths.length ∧
    (convertFiles opts env paths clock).stats.failed
        = (paths.filter (fun p => !(fileSucceeds env p))).length ∧
    (convertFiles opts env paths clock).stats.successful
        = (paths.filter (fun p => fileSucceeds env p)).length ∧
    (convertFiles opts env paths clock).stats.successful
        = paths.length - (convertFiles opts env paths clock).stats.failed ∧
    (convertFiles opts env paths clock).stats.successful
        + (convertFiles opts env paths clock).stats.failed = paths.length ∧
    (convertFiles opts env paths clock).trace.map (fun r => r.inputPath) = paths := by
  obtain ⟨hs, hf, ht, -⟩ := convertFilesLoop_spec opts env paths clock.tail 0 0
  have hsplit := filter_length_split (fun p => fileSucceeds env p) paths
  have h1 : (convertFiles opts env paths clock).stats.total = paths.length := by
    unfold convertFiles; simp only [tick_eq]
  have h2 : (convertFiles opts env paths clock).stats.successful
      = (paths.filter (fun p => fileSucceeds env p)).length := by
    unfold convertFiles; simp only [tick_eq, List.drop_one]; simpa using hs
  have h3 : (convertFiles opts env paths clock).stats.failed
      = (paths.filter (fun p => !(fileSucceeds env p))).length := by
    unfold convertFiles; simp only [tick_eq, List.drop_one]; simpa using hf
  have h4 : (convertFiles opts env paths clock).trace.map (fun r => r.inputPath)
      = paths := by
    unfold convertFiles; simp only [tick_eq, List.drop_one]; simpa using ht
  refine ⟨h1, h3, h2, ?_, ?_, h4⟩ <;> rw [h2, h3] <;> omega

/-- Claim C2 counterexample: on the single healthy input `a.tif` with the
clock readings 0, 1, 2, 4 (one millisecond inside `convertFile`, then two
milliseconds of loop overhead before the final reading), `convertFiles`
reports `totalTime = 4` while the per-file durations sum to `1`: the
`totalTime` field is not the sum of the per-file `processingTime` values. -/
theorem C2_counterexample :
    ¬ ((convertFiles defaultOpts allOkEnv ["a.tif"] [0, 1, 2, 4]).stats.totalTime
        = sumDurations (convertFiles defaultOpts allOkEnv ["a.tif"] [0, 1, 2, 4]).trace) := by
  decide

/-- Claim C2 (amended): `totalTime` is the wall-clock difference between
the `Date.now()` reading taken before the loop and the one taken after it
(clock readings number `2K + 1` and `0`), and under a monotone clock it is
at least — not equal to — the sum of the per-file `processingTime`
values. -/
theorem C2_totalTime_wall_clock (opts : ConversionOptions) (env : String → FileEnv)
    (paths : List String) (clock : List Nat)
    (hc : List.Chain' (fun a b => a ≤ b) clock)
    (hl : 2 * paths.length + 2 ≤ clock.length) :
    (convertFiles opts env paths clock).stats.totalTime
      = ((clock.drop (2 * paths.length + 1)).headD 0 : Int) - (clock.headD 0 : Int) ∧
    sumDurations (convertFiles opts env paths clock).trace
      ≤ (convertFiles opts env paths clock).stats.totalTime := by
  obtain ⟨a, b, r, rfl⟩ : ∃ a b r, clock = a :: b :: r := by
    cases clock with
    | nil => simp at hl
    | cons a cl =>
      cases cl with
      | nil => simp at hl
      | cons b r => exact ⟨a, b, r, rfl⟩
  have hct : List.Chain' (fun x y => x ≤ y) (b :: r) := (List.chain'_cons'.mp hc).2
  have hab : a ≤ b := (List.chain'_cons.mp hc).1
  have hl' : 2 * paths.length + 1 ≤ (b :: r).length := by
    simp at hl ⊢; omega
  obtain ⟨-, -, -, hck⟩ := convertFilesLoop_spec opts env paths (b :: r) 0 0
  have htime := convertFilesLoop_time opts env paths (b :: r) 0 0 hct hl'
  constructor
  · unfold convertFiles
    simp only [tick_eq, List.headD_cons, List.drop_succ_cons, List.drop_zero]
    rw [hck]
  · unfold convertFiles
    simp only [tick_eq, List.headD_cons, List.drop_succ_cons, List.drop_zero]
    rw [hck]
    simp only [List.headD_cons] at htime
    simp only [sumDurations] at htime ⊢
    omega

/-- Witness for the amended claim C2 at a concrete monotone clock. -/
theorem C2_totalTime_wall_clock_witness :
    sumDurations (convertFiles defaultOpts allOkEnv ["a.tif"] [0, 1, 2, 4]).trace
      ≤ (convertFiles defaultOpts allOkEnv ["a.tif"] [0, 1, 2, 4]).stats.totalTime :=
  (C2_totalTime_wall_clock defaultOpts allOkEnv ["a.tif"] [0, 1, 2, 4]
    (by simp [List.chain'_cons]) (by decide)).2

theorem isValid_of_stat {info : FileInfo} {p : String}
    (h : info.stat ≠ FileStat.file) : isValidTiffFile info p = false := by
  unfold isValidTiffFile
  cases hs : info.stat <;> simp_all

theorem isValid_of_ext {info : FileInfo} {p : String}
    (h : hasTiffExt p = false) : isValidTiffFile info p = false := by
  unfold isValidTiffFile
  cases hs : info.stat <;> simp_all

theorem isValid_of_fmt {info : FileInfo} {p : String}
    (h : info.metadataFormat ≠ some "tiff") : isValidTiffFile info p = false := by
  unfold isValidTiffFile
  cases hs : info.stat <;> cases hm : info.metadataFormat <;> simp_all

/-- Claim C9: `convertFile` never throws — it is a total function whose
outcome records every failure: the outcome always carries the input path;
success holds exactly when validation, output-directory creation and the
codec all succeed; a successful outcome carries the generated output path
and no error message; a failed outcome carries an empty output path and an
error message; each of the three validation conditions (existing regular
file, `.tif`/`.tiff` extension, metadata format `tiff`) failing forces a
failed outcome with the fixed validation message; and a codec error is
captured as a failed outcome carrying the codec message. -/
theorem C9_convertOne_never_throws (opts : ConversionOptions) (env : String → FileEnv)
    (p : String) (clock : List Nat) (m : String) :
    ((convertFile opts env p clock).result.inputPath = p) ∧
    ((convertFile opts env p clock).result.success = fileSucceeds env p) ∧
    ((convertFile opts env p clock).result.success = true →
      (convertFile opts env p clock).result.outputPath = generateOutputPath opts p ∧
      (convertFile opts env p clock).result.error = none) ∧
    ((convertFile opts env p clock).result.success = false →
      (convertFile opts env p clock).result.outputPath = "" ∧
      (convertFile opts env p clock).result.error.isSome = true) ∧
    (isValidTiffFile (env p).info p = false →
      (convertFile opts env p clock).result.success = false ∧
      (convertFile opts env p clock).result.error
        = some "Input file is not a valid TIFF image") ∧
    ((env p).info.stat ≠ FileStat.file → isValidTiffFile (env p).info p = false) ∧
    (hasTiffExt p = false → isValidTiffFile (env p).info p = false) ∧
    ((env p).info.metadataFormat ≠ some "tiff" → isValidTiffFile (env p).info p = false) ∧
    (isValidTiffFile (env p).info p = true → (env p).ensureDirError = none →
      (env p).codecError = some m →
      (convertFile opts env p clock).result.success = false ∧
      (convertFile opts env p clock).result.error = some m) := by
  refine ⟨convertFile_inputPath opts env p clock, convertFile_success opts env p clock,
    ?_, ?_, ?_, fun h => isValid_of_stat h, fun h => isValid_of_ext h,
    fun h => isValid_of_fmt h, ?_⟩
  · intro h
    rw [convertFile_success] at h
    unfold fileSucceeds at h
    simp only [Bool.and_eq_true, Option.isNone_iff_eq_none] at h
    obtain ⟨⟨hv, he⟩, hcd⟩ := h
    unfold convertFile
    simp [tick_eq, hv, he, hcd]
  · cases hv : isValidTiffFile (env p).info p <;>
      cases h2 : (env p).ensureDirError <;>
        cases h3 : (env p).codecError <;>
          simp [convertFile, tick_eq, hv, h2, h3]
  · intro hv
    unfold convertFile
    simp [tick_eq, hv]
  · intro hv he hcd
    unfold convertFile
    simp [tick_eq, hv, he, hcd]

/-- Witness for claim C9: a healthy file succeeds with the generated
output path; an invalid one fails with the validation message. -/
theorem C9_convertOne_never_throws_witness :
    (convertFile defaultOpts allOkEnv "a.tif" [0, 1]).result.outputPath
        = generateOutputPath defaultOpts "a.tif" ∧
    (convertFile defaultOpts (fun _ => ⟨⟨FileStat.notFile, none⟩, none, none⟩)
        "a.tif" [0, 1]).result.error = some "Input file is not a valid TIFF image" :=
  ⟨((C9_convertOne_never_throws defaultOpts allOkEnv "a.tif" [0, 1] "m").2.2.1
      (by decide)).1,
    ((C9_convertOne_never_throws defaultOpts (fun _ => ⟨⟨FileStat.notFile, none⟩, none, none⟩)
      "a.tif" [0, 1] "m").2.2.2.2.1 (by decide)).2⟩

/-! ## Claim theorems: locator classifier -/

/-- Claim C3: when the URL host contains the remote-storage domain token
`drive.google.com`, classification extracts the folder identifier by
testing, in order, the patterns `/folders/<id>`, `id=<id>`, `/d/<id>` —
the first matching pattern wins — and the three spec example shapes
(instantiated at the host that the code actually tests for) classify as
google-drive folders with ids `ABC123`, `XYZ` and `QRS` respectively. -/
theorem C3_classifier_pattern_order :
    (∀ (urlHostname : String → Option String) (s h fid : String),
      urlHostname s = some h →
      hasSubstring "drive.google.com".data h.data = true →
      InputParser.extractFolderId s = some fid →
      InputParser.parse urlHostname s = ⟨InputType.googleDrive, s, some fid⟩) ∧
    (∀ (s : String) (cap : List Char),
      matchCapture "/folders/".data s.data = some cap →
      InputParser.extractFolderId s = some (String.mk cap)) ∧
    (∀ (s : String) (cap : List Char),
      matchCapture "/folders/".data s.data = none →
      matchCapture "id=".data s.data = some cap →
      InputParser.extractFolderId s = some (String.mk cap)) ∧
    (∀ (s : String) (cap : List Char),
      matchCapture "/folders/".data s.data = none →
      matchCapture "id=".data s.data = none →
      matchCapture "/d/".data s.data = some cap →
      InputParser.extractFolderId s = some (String.mk cap)) ∧
    InputParser.parse simpleUrlHostname "https://drive.google.com/drive/folders/ABC123"
      = ⟨InputType.googleDrive, "https://drive.google.com/drive/folders/ABC123",
          some "ABC123"⟩ ∧
    InputParser.parse simpleUrlHostname "https://drive.google.com/open?id=XYZ"
      = ⟨InputType.googleDrive, "https://drive.google.com/open?id=XYZ", some "XYZ"⟩ ∧
    InputParser.parse simpleUrlHostname "https://drive.google.com/d/QRS"
      = ⟨InputType.googleDrive, "https://drive.google.com/d/QRS", some "QRS"⟩ := by
  refine ⟨?_, ?_, ?_, ?_, by decide, by decide, by decide⟩
  · intro urlHostname s h fid hh hsub hex
    unfold InputParser.parse
    simp [hh, hsub, hex]
  · intro s cap h1
    unfold InputParser.extractFolderId
    simp [h1]
  · intro s cap h1 h2
    unfold InputParser.extractFolderId
    simp [h1, h2]
  · intro s cap h1 h2 h3
    unfold InputParser.extractFolderId
    simp [h1, h2, h3]

/-- Witness for claim C3: the first pattern fires on the folders-URL. -/
theorem C3_classifier_pattern_order_witness :
    InputParser.extractFolderId "https://drive.google.com/drive/folders/ABC123"
      = some (String.mk ['A', 'B', 'C', '1', '2', '3']) :=
  C3_classifier_pattern_order.2.1 "https://drive.google.com/drive/folders/ABC123"
    ['A', 'B', 'C', '1', '2', '3'] (by decide)

/-- Claim C4: an input that does not parse as a URL, or whose host does not
contain the remote-storage domain token, or whose host matches but from
which no folder id can be extracted, is always classified `Local` with the
original string preserved unchanged and no folder id. -/
theorem C4_classifier_local_fallback (urlHostname : String → Option String)
    (s hn : String) :
    (urlHostname s = none →
      InputParser.parse urlHostname s = ⟨InputType.localPath, s, none⟩) ∧
    (urlHostname s = some hn →
      hasSubstring "drive.google.com".data hn.data = false →
      InputParser.parse urlHostname s = ⟨InputType.localPath, s, none⟩) ∧
    (urlHostname s = some hn →
      hasSubstring "drive.google.com".data hn.data = true →
      InputParser.extractFolderId s = none →
      InputParser.parse urlHostname s = ⟨InputType.localPath, s, none⟩) := by
  refine ⟨?_, ?_, ?_⟩
  · intro h1
    unfold InputParser.parse
    simp [h1]
  · intro h1 h2
    unfold InputParser.parse
    simp [h1, h2]
  · intro h1 h2 h3
    unfold InputParser.parse
    simp [h1, h2, h3]

/-- Witness for claim C4, covering all three fallback branches: a plain
path, a URL on a foreign host, and a matching host without an id. -/
theorem C4_classifier_local_fallback_witness :
    InputParser.parse simpleUrlHostname "photos/scan.tif"
        = ⟨InputType.localPath, "photos/scan.tif", none⟩ ∧
    InputParser.parse simpleUrlHostname "https://example.com/d/ABC"
        = ⟨InputType.localPath, "https://example.com/d/ABC", none⟩ ∧
    InputParser.parse simpleUrlHostname "https://drive.google.com/"
        = ⟨InputType.localPath, "https://drive.google.com/", none⟩ :=
  ⟨(C4_classifier_local_fallback simpleUrlHostname "photos/scan.tif" "x").1 (by decide),
    (C4_classifier_local_fallback simpleUrlHostname "https://example.com/d/ABC"
      "example.com").2.1 (by decide) (by decide),
    (C4_classifier_local_fallback simpleUrlHostname "https://drive.google.com/"
      "drive.google.com").2.2 (by decide) (by decide) (by decide)⟩

/-! ## Claim theorems: local expander -/

theorem qual_cons {r : Bool} {d p : String} {e : FsEntry} {rest : List FsEntry}
    (h : QualFile r d rest p) : QualFile r d (e :: rest) p := by
  cases h with
  | top hmem hext => exact QualFile.top (List.mem_cons_of_mem _ hmem) hext
  | sub hmem hq => exact QualFile.sub (List.mem_cons_of_mem _ hmem) hq

theorem mem_findRec_of_file {d n : String} (hext : hasTiffExt n = true) :
    ∀ entries : List FsEntry, FsEntry.file n ∈ entries →
      joinPath d n ∈ findTiffFilesRec d entries := by
  intro entries
  induction entries with
  | nil => intro h; cases h
  | cons e rest ih =>
    intro hmem
    rcases List.mem_cons.mp hmem with he | hm
    · cases he
      simp [findTiffFilesRec, hext]
    · cases e with
      | file m => simp only [findTiffFilesRec, List.mem_append]; exact Or.inr (ih hm)
      | dir dn sub => simp only [findTiffFilesRec, List.mem_append]; exact Or.inr (ih hm)
      | other m => simpa only [findTiffFilesRec] using ih hm

theorem mem_findRec_of_sub {d dn x : String} {subE : List FsEntry} :
    ∀ entries : List FsEntry, FsEntry.dir dn subE ∈ entries →
      x ∈ findTiffFilesRec (joinPath d dn) subE →
      x ∈ findTiffFilesRec d entries := by
  intro entries
  induction entries with
  | nil => intro h; cases h
  | cons e rest ih =>
    intro hmem hx
    rcases List.mem_cons.mp hmem with he | hm
    · cases he
      simp only [findTiffFilesRec, List.mem_append]
      exact Or.inl hx
    · cases e with
      | file m => simp only [findTiffFilesRec, List.mem_append]; exact Or.inr (ih hm hx)
      | dir n2 s2 => simp only [findTiffFilesRec, List.mem_append]; exact Or.inr (ih hm hx)
      | other m => simpa only [findTiffFilesRec] using ih hm hx

theorem mem_findRec_of_qual {r : Bool} {p d : String} {entries : List FsEntry}
    (h : QualFile r d entries p) : p ∈ findTiffFilesRec d entries := by
  induction h with
  | top hmem hext => exact mem_findRec_of_file hext _ hmem
  | sub hmem hq ih => exact mem_findRec_of_sub _ hmem ih

theorem sizeOf_entry_pos (e : FsEntry) : 0 < sizeOf e := by
  cases e <;> simp_arith

theorem qual_of_mem_findRec {p : String} :
    ∀ (n : Nat) (d : String) (entries : List FsEntry), sizeOf entries ≤ n →
      p ∈ findTiffFilesRec d entries → QualFile true d entries p := by
  intro n
  induction n with
  | zero =>
    intro d entries hle hmem
    cases entries with
    | nil => simp [findTiffFilesRec] at hmem
    | cons e rest =>
      simp at hle
  | succ n ih =>
    intro d entries hle hmem
    cases entries with
    | nil => simp [findTiffFilesRec] at hmem
    | cons e rest =>
      have hpos := sizeOf_entry_pos e
      simp at hle
      have hre : sizeOf rest ≤ n := by omega
      cases e with
      | file m =>
        simp only [findTiffFilesRec] at hmem
        rcases List.mem_append.mp hmem with h1 | h2
        · cases hx : hasTiffExt m with
          | true =>
            rw [hx] at h1
            simp at h1
            subst h1
            exact QualFile.top (List.mem_cons_self _ _) hx
          | false =>
            rw [hx] at h1
            simp at h1
        · exact qual_cons (ih d rest hre h2)
      | dir dn sub =>
        simp only [findTiffFilesRec] at hmem
        rcases List.mem_append.mp hmem with h1 | h2
        · have hsub : sizeOf sub ≤ n := by
            simp at hle
            omega
          exact QualFile.sub (List.mem_cons_self _ _) (ih (joinPath d dn) sub hsub h1)
        · exact qual_cons (ih d rest hre h2)
      | other m =>
        simp only [findTiffFilesRec] at hmem
        exact qual_cons (ih d rest hre hmem)

theorem mem_findNonRec_of_file {d n : String} (hext : hasTiffExt n = true) :
    ∀ entries : List FsEntry, FsEntry.file n ∈ entries →
      joinPath d n ∈ findTiffFilesNonRec d entries := by
  intro entries
  induction entries with
  | nil => intro h; cases h
  | cons e rest ih =>
    intro hmem
    rcases List.mem_cons.mp hmem with he | hm
    · cases he
      simp [findTiffFilesNonRec, hext]
    · cases e with
      | file m => simp only [findTiffFilesNonRec, List.mem_append]; exact Or.inr (ih hm)
      | dir dn sub => simpa only [findTiffFilesNonRec] using ih hm
      | other m => simpa only [findTiffFilesNonRec] using ih hm

theorem mem_findNonRec_iff {p d : String} :
    ∀ entries : List FsEntry,
      p ∈ findTiffFilesNonRec d entries ↔ QualFile false d entries p := by
  intro entries
  constructor
  · induction entries with
    | nil => intro h; simp [findTiffFilesNonRec] at h
    | cons e rest ih =>
      intro h
      cases e with
      | file m =>
        simp only [findTiffFilesNonRec] at h
        rcases List.mem_append.mp h with h1 | h2
        · cases hx : hasTiffExt m with
          | true =>
            rw [hx] at h1
            simp at h1
            subst h1
            exact QualFile.top (List.mem_cons_self _ _) hx
          | false =>
            rw [hx] at h1
            simp at h1
        · exact qual_cons (ih h2)
      | dir dn sub =>
        simp only [findTiffFilesNonRec] at h
        exact qual_cons (ih h)
      | other m =>
        simp only [findTiffFilesNonRec] at h
        exact qual_cons (ih h)
  · intro h
    cases h with
    | top hmem hext => exact mem_findNonRec_of_file hext _ hmem

theorem findNonRec_eq_topLevel (d : String) :
    ∀ entries : List FsEntry,
      findTiffFilesNonRec d entries = topLevelTiffFiles d entries := by
  intro entries
  induction entries with
  | nil => rfl
  | cons e rest ih =>
    cases e with
    | file m =>
      cases hx : hasTiffExt m <;>
        simp [findTiffFilesNonRec, topLevelTiffFiles, List.filterMap_cons, hx, ih]
    | dir dn sub =>
      simp only [findTiffFilesNonRec, topLevelTiffFiles, List.filterMap_cons] at ih ⊢
      exact ih
    | other m =>
      simp only [findTiffFilesNonRec, topLevelTiffFiles, List.filterMap_cons] at ih ⊢
      exact ih

/-- Claim C5: expanding an existing regular file yields exactly that single
resolved path, unconditionally (no extension filter); expanding a directory
yields exactly the entries that are regular files with lowercase `.tif` or
`.tiff` extension, recursing depth-first into subdirectories precisely when
the `recursive` option is true (`QualFile` admits subdirectory files only
at the `true` index), and with `recursive` false the result is exactly the
top-level qualifying files. -/
theorem C5_local_expansion (recursive : Bool) (fsStat : String → StatResult)
    (cwd input p : String) (entries : List FsEntry) :
    (fsStat (resolvePath cwd input) = StatResult.file →
      processLocalPath recursive fsStat cwd input
        = Except.ok [resolvePath cwd input]) ∧
    (fsStat (resolvePath cwd input) = StatResult.directory entries →
      processLocalPath recursive fsStat cwd input
        = Except.ok (findTiffFiles recursive (resolvePath cwd input) entries)) ∧
    (p ∈ findTiffFiles recursive (resolvePath cwd input) entries ↔
      QualFile recursive (resolvePath cwd input) entries p) ∧
    findTiffFiles false (resolvePath cwd input) entries
      = topLevelTiffFiles (resolvePath cwd input) entries := by
  refine ⟨?_, ?_, ?_, ?_⟩
  · intro h
    unfold processLocalPath
    simp [h]
  · intro h
    unfold processLocalPath
    simp [h]
  · cases recursive with
    | true =>
      simp only [findTiffFiles, if_true]
      exact ⟨fun h => qual_of_mem_findRec (sizeOf entries) _ entries le_rfl h,
        fun h => mem_findRec_of_qual h⟩
    | false =>
      simp only [findTiffFiles, if_false, Bool.false_eq_true]
      exact mem_findNonRec_iff entries
  · simp [findTiffFiles, findNonRec_eq_topLevel]

/-- Witness for claim C5: a single explicit file with a non-TIFF extension
is still returned unfiltered, and a nested TIFF is reachable exactly in
recursive mode. -/
theorem C5_local_expansion_witness :
    processLocalPath false (fun _ => StatResult.file) "/w" "photo.png"
        = Except.ok [resolvePath "/w" "photo.png"] ∧
    ("/w/d/s/b.tiff" ∈ findTiffFiles true (resolvePath "/w" "d")
        [FsEntry.dir "s" [FsEntry.file "b.tiff"]] ↔
      QualFile true (resolvePath "/w" "d") [FsEntry.dir "s" [FsEntry.file "b.tiff"]]
        "/w/d/s/b.tiff") :=
  ⟨(C5_local_expansion false (fun _ => StatResult.file) "/w" "photo.png" "" []).1 rfl,
    (C5_local_expansion true (fun _ => StatResult.file) "/w" "d" "/w/d/s/b.tiff"
      [FsEntry.dir "s" [FsEntry.file "b.tiff"]]).2.2.1⟩

/-! ## Claim theorems: remote fetcher and pipeline orchestrator -/

theorem existsAfter_concat_remove (p : String) (b : Bool) (evs : List FsEvent) :
    existsAfter p b (evs ++ [FsEvent.removeDir p]) = false := by
  simp [existsAfter, List.foldl_append]

theorem existsAfter_untouched (p : String) :
    ∀ (evs : List FsEvent) (b : Bool),
      (∀ e ∈ evs, (∀ q, e ≠ FsEvent.ensureDir q) ∧ (∀ q, e ≠ FsEvent.removeDir q)) →
      existsAfter p b evs = b := by
  intro evs
  induction evs with
  | nil => intro b h; rfl
  | cons e rest ih =>
    intro b h
    have he := h e (List.mem_cons_self _ _)
    have hrest := fun e' hm => h e' (List.mem_cons_of_mem _ hm)
    cases e with
    | ensureDir q => exact absurd rfl (he.1 q)
    | removeDir q => exact absurd rfl (he.2 q)
    | inputProcessed i => simpa [existsAfter] using ih b hrest
    | convertStart q => simpa [existsAfter] using ih b hrest
    | codecRun q => simpa [existsAfter] using ih b hrest

theorem gather_events_shape (opts : ConversionOptions) (env : Env) (cwd td : String) :
    ∀ inputs : List String, ∀ e ∈ (gatherFiles opts env cwd td inputs).events,
      ∃ i, e = FsEvent.inputProcessed i := by
  intro inputs
  induction inputs with
  | nil => intro e he; simp [gatherFiles] at he
  | cons i rest ih =>
    intro e he
    unfold gatherFiles at he
    cases hx : expandInput opts env cwd td i with
    | error err =>
      rw [hx] at he
      simp at he
      exact ⟨i, he⟩
    | ok fs =>
      rw [hx] at he
      simp at he
      rcases he with rfl | hm
      · exact ⟨i, rfl⟩
      · exact ih e hm

theorem convertFilesLoop_events_shape (opts : ConversionOptions) (env : String → FileEnv) :
    ∀ (paths : List String) (c : List Nat) (s f : Nat),
      ∀ e ∈ (convertFilesLoop opts env paths c s f).events,
        (∃ q, e = FsEvent.convertStart q) ∨ (∃ q, e = FsEvent.codecRun q) := by
  intro paths
  induction paths with
  | nil => intro c s f e he; simp [convertFilesLoop] at he
  | cons p rest ih =>
    intro c s f e he
    simp only [convertFilesLoop] at he
    rcases List.mem_append.mp he with h1 | h2
    · rcases convertFile_events opts env p c e h1 with rfl | rfl
      · exact Or.inl ⟨p, rfl⟩
      · exact Or.inr ⟨p, rfl⟩
    · cases hb : (convertFile opts env p c).result.success <;>
        rw [hb] at h2 <;> simp only [Bool.false_eq_true, if_true, if_false,
          ite_true, ite_false] at h2
      · exact ih _ _ _ e h2
      · exact ih _ _ _ e h2

theorem convertFiles_events_shape (opts : ConversionOptions) (env : String → FileEnv)
    (paths : List String) (clock : List Nat) :
    ∀ e ∈ (convertFiles opts env paths clock).events,
      (∃ q, e = FsEvent.convertStart q) ∨ (∃ q, e = FsEvent.codecRun q) := by
  intro e he
  unfold convertFiles at he
  simp only [tick_eq, List.drop_one] at he
  exact convertFilesLoop_events_shape opts env paths clock.tail 0 0 e he

theorem processInput_events_shape (opts : ConversionOptions) (env : Env) (cwd : String)
    (inputs : List String) (clock : List Nat) :
    ∃ mid : List FsEvent,
      (processInput opts env cwd inputs clock).events
          = FsEvent.ensureDir (stagingPath cwd)
              :: (mid ++ [FsEvent.removeDir (stagingPath cwd)]) ∧
      ∀ e ∈ mid, (∀ q, e ≠ FsEvent.ensureDir q) ∧ (∀ q, e ≠ FsEvent.removeDir q) := by
  have hg := gather_events_shape opts env cwd (stagingPath cwd) inputs
  unfold processInput
  cases hgr : (gatherFiles opts env cwd (stagingPath cwd) inputs).result with
  | error err =>
    refine ⟨(gatherFiles opts env cwd (stagingPath cwd) inputs).events, ?_, ?_⟩
    · simp only [hgr]
      have hx : existsAfter (stagingPath cwd) false
          (FsEvent.ensureDir (stagingPath cwd)
            :: (gatherFiles opts env cwd (stagingPath cwd) inputs).events) = true := by
        have h1 : ∀ e ∈ (gatherFiles opts env cwd (stagingPath cwd) inputs).events,
            (∀ q, e ≠ FsEvent.ensureDir q) ∧ (∀ q, e ≠ FsEvent.removeDir q) := by
          intro e he
          obtain ⟨i, rfl⟩ := hg e he
          exact ⟨fun q h => (nomatch h), fun q h => (nomatch h)⟩
        simp [existsAfter] at *
        simpa [existsAfter] using existsAfter_untouched (stagingPath cwd) _ true h1
      simp [hx]
    · intro e he
      obtain ⟨i, rfl⟩ := hg e he
      exact ⟨fun q h => (nomatch h), fun q h => (nomatch h)⟩
  | ok files =>
    cases files with
    | nil =>
      refine ⟨(gatherFiles opts env cwd (stagingPath cwd) inputs).events, ?_, ?_⟩
      · simp only [hgr, List.isEmpty_nil, if_true]
        have h1 : ∀ e ∈ (gatherFiles opts env cwd (stagingPath cwd) inputs).events,
            (∀ q, e ≠ FsEvent.ensureDir q) ∧ (∀ q, e ≠ FsEvent.removeDir q) := by
          intro e he
          obtain ⟨i, rfl⟩ := hg e he
          exact ⟨fun q h => (nomatch h), fun q h => (nomatch h)⟩
        have hx : existsAfter (stagingPath cwd) false
            (FsEvent.ensureDir (stagingPath cwd)
              :: (gatherFiles opts env cwd (stagingPath cwd) inputs).events) = true := by
          simpa [existsAfter] using existsAfter_untouched (stagingPath cwd) _ true h1
        simp [hx]
      · intro e he
        obtain ⟨i, rfl⟩ := hg e he
        exact ⟨fun q h => (nomatch h), fun q h => (nomatch h)⟩
    | cons f fs =>
      refine ⟨(gatherFiles opts env cwd (stagingPath cwd) inputs).events
          ++ (convertFiles opts env.files (f :: fs) clock).events, ?_, ?_⟩
      · simp only [hgr, List.isEmpty_cons, if_false, Bool.false_eq_true]
        have h1 : ∀ e ∈ (gatherFiles opts env cwd (stagingPath cwd) inputs).events
              ++ (convertFiles opts env.files (f :: fs) clock).events,
            (∀ q, e ≠ FsEvent.ensureDir q) ∧ (∀ q, e ≠ FsEvent.removeDir q) := by
          intro e he
          rcases List.mem_append.mp he with h1 | h2
          · obtain ⟨i, rfl⟩ := hg e h1
            exact ⟨fun q h => (nomatch h), fun q h => (nomatch h)⟩
          · rcases convertFiles_events_shape opts env.files (f :: fs) clock e h2 with
              ⟨q, rfl⟩ | ⟨q, rfl⟩ <;>
              exact ⟨fun q' h => (nomatch h), fun q' h => (nomatch h)⟩
        have hx : existsAfter (stagingPath cwd) false
            (FsEvent.ensureDir (stagingPath cwd)
              :: ((gatherFiles opts env cwd (stagingPath cwd) inputs).events
                ++ (convertFiles opts env.files (f :: fs) clock).events)) = true := by
          simpa [existsAfter] using existsAfter_untouched (stagingPath cwd) _ true h1
        simp [hx]
      · intro e he
        rcases List.mem_append.mp he with h1 | h2
        · obtain ⟨i, rfl⟩ := hg e h1
          exact ⟨fun q h => (nomatch h), fun q h => (nomatch h)⟩
        · rcases convertFiles_events_shape opts env.files (f :: fs) clock e h2 with
            ⟨q, rfl⟩ | ⟨q, rfl⟩ <;>
            exact ⟨fun q' h => (nomatch h), fun q' h => (nomatch h)⟩

theorem processInput_result (opts : ConversionOptions) (env : Env) (cwd : String)
    (inputs : List String) (clock : List Nat) :
    (processInput opts env cwd inputs clock).result
      = match (gatherFiles opts env cwd (stagingPath cwd) inputs).result with
        | Except.error e => Except.error e
        | Except.ok files =>
          if files.isEmpty then Except.ok ⟨0, 0, 0, 0⟩
          else Except.ok (convertFiles opts env.files files clock).stats := by
  unfold processInput
  cases hgr : (gatherFiles opts env cwd (stagingPath cwd) inputs).result with
  | error err => simp [hgr]
  | ok files => cases files <;> simp [hgr]

theorem gather_error_of_first (opts : ConversionOptions) (env : Env) (cwd td : String)
    (e : RunError) :
    ∀ (pre : List String) (i : String) (post : List String),
      (∀ j ∈ pre, isOkE (expandInput opts env cwd td j) = true) →
      expandInput opts env cwd td i = Except.error e →
      (gatherFiles opts env cwd td (pre ++ i :: post)).result = Except.error e := by
  intro pre
  induction pre with
  | nil =>
    intro i post hpre hi
    simp only [List.nil_append]
    unfold gatherFiles
    simp [hi]
  | cons j pre ih =>
    intro i post hpre hi
    have hj := hpre j (List.mem_cons_self _ _)
    simp only [List.cons_append]
    unfold gatherFiles
    cases hx : expandInput opts env cwd td j with
    | error err =>
      rw [hx] at hj
      simp [isOkE] at hj
    | ok fs =>
      have hr := ih i post (fun j' hm => hpre j' (List.mem_cons_of_mem _ hm)) hi
      simp [hr]

theorem downloadAll_abort (svc : GoogleDriveService) (td m : String) :
    ∀ (pre : List DriveFile) (f : DriveFile) (post : List DriveFile),
      (∀ g ∈ pre, svc.download g.id = Except.ok ()) →
      svc.download f.id = Except.error m →
      downloadAll svc td (pre ++ f :: post)
        = Except.error (RunError.downloadFailed m) := by
  intro pre
  induction pre with
  | nil =>
    intro f post hpre hf
    simp only [List.nil_append]
    unfold downloadAll
    simp [hf]
  | cons g pre ih =>
    intro f post hpre hf
    have hg := hpre g (List.mem_cons_self _ _)
    simp only [List.cons_append]
    unfold downloadAll
    rw [hg]
    simp [ih f post (fun g' hm => hpre g' (List.mem_cons_of_mem _ hm)) hf]

/-- Claim C6: input-expansion errors are run-fatal while file-level errors
are absorbed. The run result is an error exactly when expansion failed
(before any statistics are produced); the first failing input aborts the
run; a missing local path, a remote locator without a configured Drive
collaborator, a listing failure of an initialized collaborator, and a
failure downloading any one file (which aborts the whole folder fetch, not
per-file isolated) each produce such a fatal error; and whenever expansion
succeeds the run returns statistics no matter how many per-file
validation/codec failures the conversion environment injects. -/
theorem C6_fatal_vs_absorbed (opts : ConversionOptions) (env : Env) (cwd : String)
    (inputs : List String) (clock : List Nat) (e : RunError) :
    ((processInput opts env cwd inputs clock).result = Except.error e ↔
      (gatherFiles opts env cwd (stagingPath cwd) inputs).result = Except.error e) ∧
    (∀ pre i post, inputs = pre ++ i :: post →
      (∀ j ∈ pre, isOkE (expandInput opts env cwd (stagingPath cwd) j) = true) →
      expandInput opts env cwd (stagingPath cwd) i = Except.error e →
      (processInput opts env cwd inputs clock).result = Except.error e) ∧
    (∀ i, (InputParser.parse env.urlHostname i).type = InputType.localPath →
      env.fsStat (resolvePath cwd i) = StatResult.missing →
      expandInput opts env cwd (stagingPath cwd) i
        = Except.error (RunError.pathNotFound i)) ∧
    (∀ i, (InputParser.parse env.urlHostname i).type = InputType.googleDrive →
      env.svc = none →
      expandInput opts env cwd (stagingPath cwd) i
        = Except.error RunError.serviceMissing) ∧
    (∀ (s : GoogleDriveService) (fid td m : String), s.initialized = true →
      s.listTiff fid = Except.error m →
      processGoogleDriveFolder (some s) fid td
        = Except.error (RunError.listFailed m)) ∧
    (∀ (s : GoogleDriveService) (td m : String) (pre : List DriveFile)
        (f : DriveFile) (post : List DriveFile),
      (∀ g ∈ pre, s.download g.id = Except.ok ()) →
      s.download f.id = Except.error m →
      downloadAll s td (pre ++ f :: post)
        = Except.error (RunError.downloadFailed m)) ∧
    (∀ files,
      (gatherFiles opts env cwd (stagingPath cwd) inputs).result = Except.ok files →
      ∃ stats, (processInput opts env cwd inputs clock).result = Except.ok stats) := by
  refine ⟨?_, ?_, ?_, ?_, ?_, ?_, ?_⟩
  · rw [processInput_result]
    cases hgr : (gatherFiles opts env cwd (stagingPath cwd) inputs).result with
    | error err => simp
    | ok files => cases files <;> simp
  · intro pre i post hin hpre hi
    subst hin
    rw [processInput_result, gather_error_of_first opts env cwd (stagingPath cwd)
      e pre i post hpre hi]
  · intro i ht hm
    unfold expandInput
    simp only [ht]
    unfold processLocalPath
    rw [parse_path]
    simp [hm]
  · intro i ht hsvc
    unfold expandInput
    simp [ht, hsvc]
  · intro s fid td m hinit hlist
    unfold processGoogleDriveFolder
    simp [hinit, hlist]
  · exact fun s td m pre f post h1 h2 => downloadAll_abort s td m pre f post h1 h2
  · intro files hg
    rw [processInput_result]
    cases hfe : files.isEmpty <;> simp [hg, hfe]

/-- Witness for claim C6: a missing local path is fatal to the whole run,
with no statistics produced. -/
theorem C6_fatal_vs_absorbed_witness :
    expandInput defaultOpts allMissingEnv "/w" (stagingPath "/w") "x"
        = Except.error (RunError.pathNotFound "x") ∧
    (processInput defaultOpts allMissingEnv "/w" ["x"] []).result
        = Except.error (RunError.pathNotFound "x") :=
  ⟨(C6_fatal_vs_absorbed defaultOpts allMissingEnv "/w" ["x"] []
      (RunError.pathNotFound "x")).2.2.1 "x" rfl rfl,
    (C6_fatal_vs_absorbed defaultOpts allMissingEnv "/w" ["x"] []
      (RunError.pathNotFound "x")).2.1 [] "x" [] rfl (by simp)
      ((C6_fatal_vs_absorbed defaultOpts allMissingEnv "/w" ["x"] []
        (RunError.pathNotFound "x")).2.2.1 "x" rfl rfl)⟩

/-- Claim C7: after every pipeline run — fatal error or statistics alike,
for every environment, input list, clock and initial state — the staging
directory does not exist: the cleanup removes it on every exit path. -/
theorem C7_staging_removed (opts : ConversionOptions) (env : Env) (cwd : String)
    (inputs : List String) (clock : List Nat) (b0 : Bool) :
    existsAfter (stagingPath cwd) b0
      (processInput opts env cwd inputs clock).events = false := by
  obtain ⟨mid, hev, -⟩ := processInput_events_shape opts env cwd inputs clock
  rw [hev]
  simp [existsAfter, List.foldl_append]

/-- Claim C8: when the inputs expand to an empty candidate list (the empty
input list included), the run returns the zero statistics record, consumes
no clock readings, and never invokes the conversion engine or the codec. -/
theorem C8_empty_expansion (opts : ConversionOptions) (env : Env) (cwd : String)
    (inputs : List String) (clock : List Nat)
    (h : (gatherFiles opts env cwd (stagingPath cwd) inputs).result = Except.ok []) :
    (processInput opts env cwd inputs clock).result = Except.ok ⟨0, 0, 0, 0⟩ ∧
    (processInput opts env cwd inputs clock).clockOut = clock ∧
    (∀ p, FsEvent.convertStart p ∉ (processInput opts env cwd inputs clock).events) ∧
    (∀ p, FsEvent.codecRun p ∉ (processInput opts env cwd inputs clock).events) ∧
    (gatherFiles opts env cwd (stagingPath cwd) []).result = Except.ok [] := by
  have hg := gather_events_shape opts env cwd (stagingPath cwd) inputs
  refine ⟨?_, ?_, ?_, ?_, rfl⟩
  · rw [processInput_result]
    simp [h]
  · unfold processInput
    simp [h]
  · intro p hmem
    unfold processInput at hmem
    simp only [h, List.isEmpty_nil, if_true] at hmem
    simp only [List.mem_append, List.mem_cons] at hmem
    rcases hmem with (h1 | h1) | h2
    · cases h1
    · obtain ⟨i, hi⟩ := hg _ h1
      cases hi
    · revert h2
      cases hx : existsAfter (stagingPath cwd) false
          (FsEvent.ensureDir (stagingPath cwd)
            :: (gatherFiles opts env cwd (stagingPath cwd) inputs).events) <;> simp
  · intro p hmem
    unfold processInput at hmem
    simp only [h, List.isEmpty_nil, if_true] at hmem
    simp only [List.mem_append, List.mem_cons] at hmem
    rcases hmem with (h1 | h1) | h2
    · cases h1
    · obtain ⟨i, hi⟩ := hg _ h1
      cases hi
    · revert h2
      cases hx : existsAfter (stagingPath cwd) false
          (FsEvent.ensureDir (stagingPath cwd)
            :: (gatherFiles opts env cwd (stagingPath cwd) inputs).events) <;> simp

/-- Witness for claim C8 at the empty input list. -/
theorem C8_empty_expansion_witness :
    (processInput defaultOpts localFileEnv "/w" [] [0, 1]).result
      = Except.ok ⟨0, 0, 0, 0⟩ :=
  (C8_empty_expansion defaultOpts localFileEnv "/w" [] [0, 1] rfl).1

/-- Claim C10: every run — remote or purely local — starts by creating the
fixed staging path `.temp-downloads` under the working directory, before
any input is processed, and ends by removing it; two runs from the same
working directory use the identical staging path whatever their inputs,
environment or clock. -/
theorem C10_staging_fixed_path (opts : ConversionOptions) (env : Env) (cwd : String)
    (inputs : List String) (clock : List Nat) :
    (processInput opts env cwd inputs clock).events.head?
        = some (FsEvent.ensureDir (joinPath cwd ".temp-downloads")) ∧
    (processInput opts env cwd inputs clock).events.getLast?
        = some (FsEvent.removeDir (joinPath cwd ".temp-downloads")) ∧
    (∀ n i, (processInput opts env cwd inputs clock).events[n]?
        = some (FsEvent.inputProcessed i) → 0 < n) ∧
    (∀ (env' : Env) (inputs' : List String) (clock' : List Nat),
      (processInput opts env' cwd inputs' clock').events.head?
        = (processInput opts env cwd inputs clock).events.head?) := by
  obtain ⟨mid, hev, -⟩ := processInput_events_shape opts env cwd inputs clock
  refine ⟨?_, ?_, ?_, ?_⟩
  · rw [hev]
    rfl
  · rw [hev]
    simp only [stagingPath]
    rw [← List.cons_append, List.getLast?_concat]
  · intro n i hn
    cases n with
    | zero =>
      rw [hev] at hn
      simp at hn
    | succ n => omega
  · intro env' inputs' clock'
    obtain ⟨mid', hev', -⟩ := processInput_events_shape opts env' cwd inputs' clock'
    rw [hev, hev']
    rfl

/-- Witness for claim C10: in an all-local run the staging directory is
still created first and the first raw input is processed strictly after. -/
theorem C10_staging_fixed_path_witness :
    (processInput defaultOpts localFileEnv "/w" ["a.tif"] [0, 1, 2, 3]).events.head?
        = some (FsEvent.ensureDir (joinPath "/w" ".temp-downloads")) ∧ 0 < 1 :=
  ⟨(C10_staging_fixed_path defaultOpts localFileEnv "/w" ["a.tif"] [0, 1, 2, 3]).1,
    (C10_staging_fixed_path defaultOpts localFileEnv "/w" ["a.tif"]
      [0, 1, 2, 3]).2.2.1 1 "a.tif" (by rfl)⟩

end PhotoConv
